import Mathlib

/-!
Verification of the SYNOPSIS downlink-prioritization core.

This file is a shallow embedding, in Lean 4, of the prioritization core of
the SYNOPSIS onboard downlink-prioritization engine:

  * the metadata value model (`DpDbMsg.cpp`),
  * the rule/constraint expression language and its evaluator (`RuleAST.cpp`),
  * the similarity discount engine with its memo cache (`Similarity.cpp`),
  * the greedy bin planner and the `prioritize` entry point
    (`MaxMarginalRelevanceDownlinkPlanner.cpp`),
  * the wall-clock timer (`Timer.cpp`).

Modelling conventions:

  * C++ `double` values are modelled by an explicit tagged type `FVal`:
    ordinary finite values are rationals (`FVal.num q`) and IEEE quiet NaN is
    `FVal.nan`.  Arithmetic propagates NaN and every ordered comparison with
    NaN is false (`!=` is the negation of `==`), matching IEEE semantics for
    the operations the source uses.  Division by zero is mapped to `FVal.nan`
    (IEEE produces an infinity there; the source leaves that case undefined
    and no verified statement below exercises it).
  * `std::map` keyed containers are modelled as association lists with
    first-match lookup; `std::map::operator[]` reads of missing keys yield the
    default-constructed value, exactly as in the source.
  * The JSON configuration parsers are abstracted: `prioritize` receives the
    parsed `RuleSet` and `Similarity` values directly, and all theorems
    quantify over them.
  * The C library's `exp` (used only by the Gaussian kernel) is an external
    collaborator; it is modelled by an arbitrary function `gexp : FVal → FVal`
    over which every theorem quantifies.
  * The mutable similarity memo cache is modelled by explicit state passing:
    each method that can touch the cache returns the updated cache.
  * The twice-read wall clock of `prioritize` (once in `Timer::start`, once in
    `Timer::is_expired`) is modelled by two rational arguments `t0`, `t1`.
-/

/-! ## IEEE double model -/

/-- Model of a C++ `double`: a finite value (as an exact rational) or NaN. -/
inductive FVal where
  | num (q : ℚ)
  | nan
deriving DecidableEq, Repr

/-- IEEE addition on the `FVal` model (NaN propagates). -/
def fadd : FVal → FVal → FVal
  | FVal.num a, FVal.num b => FVal.num (a + b)
  | _, _ => FVal.nan

/-- IEEE subtraction on the `FVal` model (NaN propagates). -/
def fsub : FVal → FVal → FVal
  | FVal.num a, FVal.num b => FVal.num (a - b)
  | _, _ => FVal.nan

/-- IEEE multiplication on the `FVal` model (NaN propagates). -/
def fmul : FVal → FVal → FVal
  | FVal.num a, FVal.num b => FVal.num (a * b)
  | _, _ => FVal.nan

/-- IEEE negation on the `FVal` model (NaN propagates). -/
def fneg : FVal → FVal
  | FVal.num a => FVal.num (-a)
  | FVal.nan => FVal.nan

/-- Division on the `FVal` model.  NaN propagates; division by zero (which
IEEE maps to an infinity) is mapped to NaN — no verified statement below
reaches that case. -/
def fdiv : FVal → FVal → FVal
  | FVal.num a, FVal.num b => if b = 0 then FVal.nan else FVal.num (a / b)
  | _, _ => FVal.nan

/-- IEEE `==`: false whenever either side is NaN. -/
def feq : FVal → FVal → Bool
  | FVal.num a, FVal.num b => a = b
  | _, _ => false

/-- IEEE `!=`: the negation of `==` (true whenever either side is NaN). -/
def fne (a b : FVal) : Bool := !(feq a b)

/-- IEEE `<`: false whenever either side is NaN. -/
def flt : FVal → FVal → Bool
  | FVal.num a, FVal.num b => a < b
  | _, _ => false

/-- IEEE `<=`: false whenever either side is NaN. -/
def fle : FVal → FVal → Bool
  | FVal.num a, FVal.num b => a ≤ b
  | _, _ => false

/-- IEEE `>`: false whenever either side is NaN. -/
def fgt : FVal → FVal → Bool
  | FVal.num a, FVal.num b => b < a
  | _, _ => false

/-- IEEE `>=`: false whenever either side is NaN. -/
def fge : FVal → FVal → Bool
  | FVal.num a, FVal.num b => b ≤ a
  | _, _ => false

/-! ## Metadata value model (`DpDbMsg.cpp`) -/

/-- `MetadataType` enum from `synopsis_types.hpp` (`INT=0, FLOAT=1, STRING=2`). -/
inductive MetadataType where
  | INT
  | FLOAT
  | STRING
deriving DecidableEq, Repr

/-- `DpMetadataValue`: tagged union of integer, float and string, stored (as in
the C++ class) as one tag plus all three payload fields. -/
structure DpMetadataValue where
  type : MetadataType
  int_value : ℤ
  float_value : FVal
  string_value : String
deriving DecidableEq, Repr

/-- The default constructor `DpMetadataValue()`: `INT` with value 0. -/
def DpMetadataValue.mkDefault : DpMetadataValue :=
  ⟨MetadataType.INT, 0, FVal.num 0, ""⟩

/-- The constructor `DpMetadataValue(int)`. -/
def DpMetadataValue.ofInt (i : ℤ) : DpMetadataValue :=
  ⟨MetadataType.INT, i, FVal.num 0, ""⟩

/-- The constructor `DpMetadataValue(double)`. -/
def DpMetadataValue.ofFloat (f : FVal) : DpMetadataValue :=
  ⟨MetadataType.FLOAT, 0, f, ""⟩

/-- The constructor `DpMetadataValue(std::string)`. -/
def DpMetadataValue.ofString (s : String) : DpMetadataValue :=
  ⟨MetadataType.STRING, 0, FVal.num 0, s⟩

/-- `DpMetadataValue::is_numeric`: true for `INT` or `FLOAT`. -/
def DpMetadataValue.is_numeric (v : DpMetadataValue) : Bool :=
  match v.type with
  | MetadataType.STRING => false
  | _ => true

/-- `DpMetadataValue::get_numeric`: `INT` cast to double, otherwise the float
payload. -/
def DpMetadataValue.get_numeric (v : DpMetadataValue) : FVal :=
  match v.type with
  | MetadataType.INT => FVal.num (v.int_value : ℚ)
  | _ => v.float_value

/-- `DpMetadataValue::get_int_value` (raw integer payload). -/
def DpMetadataValue.get_int_value (v : DpMetadataValue) : ℤ := v.int_value

/-- `DpMetadataValue::get_float_value` (raw float payload). -/
def DpMetadataValue.get_float_value (v : DpMetadataValue) : FVal := v.float_value

/-- `DpMetadataValue::get_string_value` (raw string payload). -/
def DpMetadataValue.get_string_value (v : DpMetadataValue) : String := v.string_value

/-! ## ASDP entries, lists, and assignments -/

/-- `AsdpEntry`: a `std::map<std::string, DpMetadataValue>`, modelled as an
association list with first-match lookup. -/
abbrev AsdpEntry := List (String × DpMetadataValue)

/-- `AsdpList`: an ordered sequence of entries. -/
abbrev AsdpList := List AsdpEntry

/-- `AsdpAssignments`: a `std::map<std::string, AsdpEntry>`. -/
abbrev AsdpAssignments := List (String × AsdpEntry)

/-- Read access `entry[key]` of `std::map::operator[]`: the stored value, or a
default-constructed `DpMetadataValue` when the key is absent. -/
def entryGet : AsdpEntry → String → DpMetadataValue
  | [], _ => DpMetadataValue.mkDefault
  | (k, v) :: rest, key => if k = key then v else entryGet rest key

/-- Write access `entry[key] = v`: replace the first binding of `key`, or
append a new binding. -/
def entrySet : AsdpEntry → String → DpMetadataValue → AsdpEntry
  | [], key, v => [(key, v)]
  | (k, w) :: rest, key, v =>
      if k = key then (k, v) :: rest else (k, w) :: entrySet rest key v

/-- `entry.count(key) > 0`. -/
def entryHas : AsdpEntry → String → Bool
  | [], _ => false
  | (k, _) :: rest, key => if k = key then true else entryHas rest key

/-- `assignments.count(var) > 0` combined with `assignments[var]`: the bound
entry, when present. -/
def asgFind : AsdpAssignments → String → Option AsdpEntry
  | [], _ => none
  | (k, e) :: rest, key => if k = key then some e else asgFind rest key

/-- `assignments[var] = asdp` (`std::map::operator[]` write: replace or add). -/
def asgSet : AsdpAssignments → String → AsdpEntry → AsdpAssignments
  | [], key, e => [(key, e)]
  | (k, w) :: rest, key, e =>
      if k = key then (k, e) :: rest else (k, w) :: asgSet rest key e

/-! ## Expression AST (`RuleAST.hpp` / `RuleAST.cpp`)

Value-valued expressions do not reference boolean-valued ones, so `ValExpr`
is defined first. -/

/-- Value-valued expression AST variants. -/
inductive ValExpr where
  | ConstExpression (value : ℚ)
  | StringConstant (value : String)
  | MinusExpression (expr : ValExpr)
  | BinaryExpression (op : String) (left_expr right_expr : ValExpr)
  | Field (var_name field_name : String)
deriving DecidableEq, Repr

/-- Boolean-valued expression AST variants. -/
inductive BoolExpr where
  | LogicalConstant (value : Bool)
  | LogicalNot (expr : BoolExpr)
  | BinaryLogicalExpression (op : String) (left_expr right_expr : BoolExpr)
  | ComparatorExpression (comp : String) (left_expr right_expr : ValExpr)
  | ExistentialExpression (var : String) (expr : BoolExpr)
deriving DecidableEq, Repr

/-- `ValueExpression::get_value` dispatch: evaluation of value-valued
expressions, mirroring each `get_value` override in `RuleAST.cpp`. -/
def ValExpr.get_value : ValExpr → AsdpAssignments → AsdpList → DpMetadataValue
  | ValExpr.ConstExpression v, _, _ => DpMetadataValue.ofFloat (FVal.num v)
  | ValExpr.StringConstant s, _, _ => DpMetadataValue.ofString s
  | ValExpr.MinusExpression e, asg, asdps =>
      let value := e.get_value asg asdps
      if value.is_numeric then DpMetadataValue.ofFloat (fneg value.get_numeric)
      else DpMetadataValue.ofFloat FVal.nan
  | ValExpr.BinaryExpression op l r, asg, asdps =>
      let left_value := l.get_value asg asdps
      let right_value := r.get_value asg asdps
      if left_value.is_numeric && right_value.is_numeric then
        let a := left_value.get_numeric
        let b := right_value.get_numeric
        if op = "*" then DpMetadataValue.ofFloat (fmul a b)
        else if op = "+" then DpMetadataValue.ofFloat (fadd a b)
        else if op = "-" then DpMetadataValue.ofFloat (fsub a b)
        else DpMetadataValue.ofFloat FVal.nan
      else DpMetadataValue.ofFloat FVal.nan
  | ValExpr.Field var fld, asg, _ =>
      match asgFind asg var with
      | some fields =>
          if entryHas fields fld then entryGet fields fld
          else DpMetadataValue.ofFloat FVal.nan
      | none => DpMetadataValue.ofFloat FVal.nan

/-- `BoolValueExpression::get_value` dispatch: evaluation of boolean-valued
expressions, mirroring each `get_value` override in `RuleAST.cpp`.  The
existential iterates the full ASDP list with a clone of the assignments
extended at its variable, returning at the first body-true element. -/
def BoolExpr.get_value : BoolExpr → AsdpAssignments → AsdpList → Bool
  | BoolExpr.LogicalConstant b, _, _ => b
  | BoolExpr.LogicalNot e, asg, asdps => !(e.get_value asg asdps)
  | BoolExpr.BinaryLogicalExpression op l r, asg, asdps =>
      let left_value := l.get_value asg asdps
      if op = "AND" then
        if left_value then r.get_value asg asdps else false
      else if op = "OR" then
        if left_value then true else r.get_value asg asdps
      else false
  | BoolExpr.ComparatorExpression comp l r, asg, asdps =>
      let left_value := l.get_value asg asdps
      let right_value := r.get_value asg asdps
      if left_value.is_numeric.xor right_value.is_numeric then false
      else if left_value.is_numeric then
        let a := left_value.get_numeric
        let b := right_value.get_numeric
        if comp = "==" then feq a b
        else if comp = "!=" then fne a b
        else if comp = ">" then fgt a b
        else if comp = ">=" then fge a b
        else if comp = "<" then flt a b
        else if comp = "<=" then fle a b
        else false
      else
        let a := left_value.get_string_value
        let b := right_value.get_string_value
        if comp = "==" then a = b
        else if comp = "!=" then a ≠ b
        else false
  | BoolExpr.ExistentialExpression v e, asg, asdps =>
      asdps.any (fun asdp => e.get_value (asgSet asg v asdp) asdps)

/-! ## Rules and constraints (`RuleAST.cpp`) -/

/-- `Rule`: one or two quantified variables, an application predicate, an
adjustment expression, and a maximum application count (negative means
unbounded). -/
structure Rule where
  _variables : List String
  application_expression : BoolExpr
  adjustment_expression : ValExpr
  max_applications : ℤ
deriving DecidableEq, Repr

/-- The single-variable loop of `Rule::apply`, threaded through
`(total_adj_value, n_applications)`.  The cap is checked inside the
application branch, after any accumulation. -/
def ruleLoop1 (r : Rule) (v : String) (asdps : AsdpList) :
    List AsdpEntry → FVal × ℤ → FVal × ℤ
  | [], acc => acc
  | a :: rest, (total, n) =>
      let assignments : AsdpAssignments := [(v, a)]
      if r.application_expression.get_value assignments asdps then
        let adj := r.adjustment_expression.get_value assignments asdps
        let acc' := if adj.is_numeric then (fadd total adj.get_numeric, n + 1) else (total, n)
        if 0 ≤ r.max_applications ∧ r.max_applications ≤ acc'.2 then acc'
        else ruleLoop1 r v asdps rest acc'
      else ruleLoop1 r v asdps rest (total, n)

/-- The inner loop of the two-variable case of `Rule::apply` (variable `a`
fixed, iterating `b`); breaking out of the inner loop is returning early. -/
def ruleLoop2Inner (r : Rule) (v1 v2 : String) (asdps : AsdpList) (a : AsdpEntry) :
    List AsdpEntry → FVal × ℤ → FVal × ℤ
  | [], acc => acc
  | b :: rest, (total, n) =>
      let assignments : AsdpAssignments := [(v1, a), (v2, b)]
      if r.application_expression.get_value assignments asdps then
        let adj := r.adjustment_expression.get_value assignments asdps
        let acc' := if adj.is_numeric then (fadd total adj.get_numeric, n + 1) else (total, n)
        if 0 ≤ r.max_applications ∧ r.max_applications ≤ acc'.2 then acc'
        else ruleLoop2Inner r v1 v2 asdps a rest acc'
      else ruleLoop2Inner r v1 v2 asdps a rest (total, n)

/-- The outer loop of the two-variable case of `Rule::apply`: after each run
of the inner loop, the cap is checked again and the outer loop breaks when it
has been reached. -/
def ruleLoop2Outer (r : Rule) (v1 v2 : String) (asdps : AsdpList) :
    List AsdpEntry → FVal × ℤ → FVal × ℤ
  | [], acc => acc
  | a :: rest, acc =>
      let acc' := ruleLoop2Inner r v1 v2 asdps a asdps acc
      if 0 ≤ r.max_applications ∧ r.max_applications ≤ acc'.2 then acc'
      else ruleLoop2Outer r v1 v2 asdps rest acc'

/-- `Rule::apply` together with its final `n_applications` counter.  Rules
with an arity other than one or two are inert. -/
def Rule.applyAux (r : Rule) (asdps : AsdpList) : FVal × ℤ :=
  match r._variables with
  | [v] => ruleLoop1 r v asdps asdps (FVal.num 0, 0)
  | [v1, v2] => ruleLoop2Outer r v1 v2 asdps asdps (FVal.num 0, 0)
  | _ => (FVal.num 0, 0)

/-- `Rule::apply`: the accumulated adjustment total. -/
def Rule.apply (r : Rule) (asdps : AsdpList) : FVal :=
  (r.applyAux asdps).1

/-- `Constraint`: a quantified application predicate, an optional sum field
(absent means count mode), and a bound. -/
structure Constraint where
  _variables : List String
  application_expression : BoolExpr
  sum_field : Option ValExpr
  constraint_value : ℚ
deriving DecidableEq, Repr

/-- The aggregation loop of `Constraint::apply`: for each entry satisfying the
application predicate, add the numeric `sum_field` value (ignoring non-numeric
values), or 1 in count mode. -/
def constraintLoop (c : Constraint) (v : String) (asdps : AsdpList) :
    List AsdpEntry → FVal → FVal
  | [], aggregate => aggregate
  | a :: rest, aggregate =>
      let assignments : AsdpAssignments := [(v, a)]
      if c.application_expression.get_value assignments asdps then
        match c.sum_field with
        | some sf =>
            let value := sf.get_value assignments asdps
            if value.is_numeric then
              constraintLoop c v asdps rest (fadd aggregate value.get_numeric)
            else constraintLoop c v asdps rest aggregate
        | none => constraintLoop c v asdps rest (fadd aggregate (FVal.num 1))
      else constraintLoop c v asdps rest aggregate

/-- `Constraint::apply`: true when the aggregate is strictly below the bound;
arities other than one are vacuously satisfied. -/
def Constraint.apply (c : Constraint) (asdps : AsdpList) : Bool :=
  match c._variables with
  | [v] => flt (constraintLoop c v asdps asdps (FVal.num 0)) (FVal.num c.constraint_value)
  | _ => true

/-! ## RuleSet (`RuleAST.cpp`) -/

/-- First-match lookup in an integer-keyed association list (`std::map<int,·>`
`count` plus `operator[]`). -/
def lookupMap {α : Type} : List (ℤ × α) → ℤ → Option α
  | [], _ => none
  | (k, x) :: rest, key => if k = key then some x else lookupMap rest key

/-- `RuleSet`: per-bin rule and constraint lists plus defaults.  (The C++
object additionally owns the expression nodes; ownership is irrelevant in a
value model.) -/
structure RuleSet where
  rule_map : List (ℤ × List Rule)
  constraint_map : List (ℤ × List Constraint)
  default_rules : List Rule
  default_constraints : List Constraint

/-- `RuleSet::get_rules`: the bin's rule list, defaulting when absent. -/
def RuleSet.get_rules (rs : RuleSet) (bin : ℤ) : List Rule :=
  match lookupMap rs.rule_map bin with
  | some rules => rules
  | none => rs.default_rules

/-- `RuleSet::get_constraints`: the bin's constraint list, defaulting when
absent. -/
def RuleSet.get_constraints (rs : RuleSet) (bin : ℤ) : List Constraint :=
  match lookupMap rs.constraint_map bin with
  | some constraints => constraints
  | none => rs.default_constraints

/-- The constraint loop of `RuleSet::apply`: scan in declared order and stop
at the first unsatisfied constraint. -/
def checkConstraints : List Constraint → AsdpList → Bool
  | [], _ => true
  | c :: rest, queue => if c.apply queue then checkConstraints rest queue else false

/-- `RuleSet::apply`: `(false, 0.0)` when some constraint is violated,
otherwise `(true, Σ rule.apply queue)`. -/
def RuleSet.apply (rs : RuleSet) (bin : ℤ) (queue : AsdpList) : Bool × FVal :=
  if checkConstraints (rs.get_constraints bin) queue then
    (true, (rs.get_rules bin).foldl (fun utility r => fadd utility (r.apply queue)) (FVal.num 0))
  else (false, FVal.num 0)

/-- The empty rule set produced by `RuleSet()` (used when no rule
configuration is supplied). -/
def RuleSet.empty : RuleSet := ⟨[], [], [], []⟩

/-! ## Similarity engine (`Similarity.cpp`) -/

/-- Parameter map of a similarity function (`std::map<std::string, double>`). -/
abbrev SimParamMap := List (String × ℚ)

/-- First-match lookup in a string-keyed association list. -/
def lookupStr {α : Type} : List (String × α) → String → Option α
  | [], _ => none
  | (k, x) :: rest, key => if k = key then some x else lookupStr rest key

/-- The accumulator loop of `_sq_euclidean_dist`: iterate up to the shorter
vector, accumulating squared differences. -/
def sqDistLoop : List FVal → List FVal → FVal → FVal
  | x :: xs, y :: ys, acc => sqDistLoop xs ys (fadd acc (fmul (fsub x y) (fsub x y)))
  | _, _, acc => acc

/-- `_sq_euclidean_dist`: squared Euclidean distance, truncated to the shorter
descriptor vector. -/
def _sq_euclidean_dist (dd1 dd2 : List FVal) : FVal :=
  sqDistLoop dd1 dd2 (FVal.num 0)

/-- `_gaussian_similarity`: `exp(-(dist_sq / sigma^2))`, with the C library's
`exp` abstracted as `gexp`. -/
def _gaussian_similarity (gexp : FVal → FVal) (sigma : ℚ) (dd1 dd2 : List FVal) : FVal :=
  gexp (fneg (fdiv (_sq_euclidean_dist dd1 dd2) (FVal.num (sigma * sigma))))

/-- `SimilarityFunction`: diversity descriptor names, weights, kernel name and
kernel parameters. -/
structure SimilarityFunction where
  _diversity_descriptors : List String
  _dd_factors : List ℚ
  _similarity_type : String
  _similarity_params : SimParamMap
deriving DecidableEq, Repr

/-- The indexed loop of `SimilarityFunction::_extract_dd`: read each
descriptor field's raw float value and scale it by the weight at the same
index when one exists. -/
def extractLoop (asdp : AsdpEntry) (factors : List ℚ) :
    List String → ℕ → List FVal
  | [], _ => []
  | key :: rest, i =>
      let dd_i := (entryGet asdp key).get_float_value
      let dd_i' := match factors.get? i with
        | some w => fmul dd_i (FVal.num w)
        | none => dd_i
      dd_i' :: extractLoop asdp factors rest (i + 1)

/-- `SimilarityFunction::_extract_dd`. -/
def SimilarityFunction._extract_dd (f : SimilarityFunction) (asdp : AsdpEntry) : List FVal :=
  extractLoop asdp f._dd_factors f._diversity_descriptors 0

/-- `SimilarityFunction::get_similarity`: Gaussian kernel with `sigma`
defaulting to 1.0 when absent; unknown kernels yield 0.0. -/
def SimilarityFunction.get_similarity (gexp : FVal → FVal) (f : SimilarityFunction)
    (asdp1 asdp2 : AsdpEntry) : FVal :=
  let dd1 := f._extract_dd asdp1
  let dd2 := f._extract_dd asdp2
  if f._similarity_type = "gaussian" then
    let sigma := match lookupStr f._similarity_params "sigma" with
      | some s => s
      | none => 1
    _gaussian_similarity gexp sigma dd1 dd2
  else FVal.num 0

/-- Similarity-function map keyed by `(instrument_name, type)` pairs. -/
abbrev SimFuncMap := List ((String × String) × SimilarityFunction)

/-- First-match lookup in the similarity-function map (`sf.count(inst_type)`
plus `sf.at(inst_type)`). -/
def lookupSim : SimFuncMap → String × String → Option SimilarityFunction
  | [], _ => none
  | (k, f) :: rest, key => if k = key then some f else lookupSim rest key

/-- The memo cache: `std::map<std::pair<int,int>, double>` keyed by id pairs. -/
abbrev SimCache := List ((ℤ × ℤ) × FVal)

/-- First-match lookup in the memo cache. -/
def lookupCache : SimCache → ℤ × ℤ → Option FVal
  | [], _ => none
  | (k, s) :: rest, key => if k = key then some s else lookupCache rest key

/-- `Similarity`: per-bin alphas and similarity-function maps with defaults.
The mutable `_cache` member is modelled by explicit state passing below. -/
structure Similarity where
  _alpha : List (ℤ × ℚ)
  _default_alpha : ℚ
  _functions : List (ℤ × SimFuncMap)
  _default_functions : SimFuncMap

/-- The cache key of `Similarity::_get_cached_similarity`: the two ids sorted
so that the smaller id is the first element. -/
def sortedKey (asdp1 asdp2 : AsdpEntry) : ℤ × ℤ :=
  let aid1 := (entryGet asdp1 "id").get_int_value
  let aid2 := (entryGet asdp2 "id").get_int_value
  if aid1 < aid2 then (aid1, aid2) else (aid2, aid1)

/-- `Similarity::_get_cached_similarity`: look the sorted id pair up in the
cache, computing and inserting the similarity on a miss.  Returns the value
together with the updated cache. -/
def Similarity._get_cached_similarity (gexp : FVal → FVal)
    (similarity_function : SimilarityFunction) (cache : SimCache)
    (asdp1 asdp2 : AsdpEntry) : FVal × SimCache :=
  let cache_key := sortedKey asdp1 asdp2
  match lookupCache cache cache_key with
  | some similarity => (similarity, cache)
  | none =>
      let similarity := similarity_function.get_similarity gexp asdp1 asdp2
      (similarity, (cache_key, similarity) :: cache)

/-- The max-tracking loop of `Similarity::get_max_similarity`: for each queue
entry sharing the candidate's `(instrument_name, type)`, take the memoized
similarity and keep the running maximum (a NaN similarity never displaces the
maximum, as in IEEE `>`). -/
def maxSimLoop (gexp : FVal → FVal) (sim_fn : SimilarityFunction)
    (inst_type : String × String) (asdp : AsdpEntry) :
    List AsdpEntry → FVal → SimCache → FVal × SimCache
  | [], max_similarity, cache => (max_similarity, cache)
  | asdp2 :: rest, max_similarity, cache =>
      let inst_type2 := ((entryGet asdp2 "instrument_name").get_string_value,
                         (entryGet asdp2 "type").get_string_value)
      if inst_type ≠ inst_type2 then
        maxSimLoop gexp sim_fn inst_type asdp rest max_similarity cache
      else
        match Similarity._get_cached_similarity gexp sim_fn cache asdp asdp2 with
        | (similarity, cache') =>
            let max' := if fgt similarity max_similarity then similarity else max_similarity
            maxSimLoop gexp sim_fn inst_type asdp rest max' cache'

/-- `Similarity::get_max_similarity`: 0.0 for an empty queue or when no
similarity function is configured for the candidate's `(instrument_name,
type)` in the bin (falling back to the default map); otherwise the maximum
memoized similarity over type-matching queue entries. -/
def Similarity.get_max_similarity (gexp : FVal → FVal) (s : Similarity) (cache : SimCache)
    (bin : ℤ) (queue : AsdpList) (asdp : AsdpEntry) : FVal × SimCache :=
  if queue.length = 0 then (FVal.num 0, cache)
  else
    let inst_type := ((entryGet asdp "instrument_name").get_string_value,
                      (entryGet asdp "type").get_string_value)
    let sf := match lookupMap s._functions bin with
      | some m => m
      | none => s._default_functions
    match lookupSim sf inst_type with
    | none => (FVal.num 0, cache)
    | some sim_fn => maxSimLoop gexp sim_fn inst_type asdp queue (FVal.num 0) cache

/-- `Similarity::get_discount_factor`: `(1 - alpha) + alpha * (1 - max_sim)`,
with `alpha` the bin's entry or the default. -/
def Similarity.get_discount_factor (gexp : FVal → FVal) (s : Similarity) (cache : SimCache)
    (bin : ℤ) (queue : AsdpList) (asdp : AsdpEntry) : FVal × SimCache :=
  match s.get_max_similarity gexp cache bin queue asdp with
  | (max_similarity, cache') =>
      let alpha := match lookupMap s._alpha bin with
        | some a => a
        | none => s._default_alpha
      (fadd (FVal.num (1 - alpha)) (fmul (FVal.num alpha) (fsub (FVal.num 1) max_similarity)),
       cache')

/-- The default similarity configuration built by `parse_similarity_config`
when no configuration is supplied: no per-bin data and `default_alpha = 1.0`. -/
def Similarity.emptyConfig : Similarity := ⟨[], 1, [], []⟩

/-! ## Timer (`Timer.cpp`) -/

/-- `Status` enum (`SUCCESS=0, FAILURE=1, TIMEOUT=2`). -/
inductive Status where
  | SUCCESS
  | FAILURE
  | TIMEOUT
deriving DecidableEq, Repr

/-- `DownlinkState` enum (`UNTRANSMITTED=0, TRANSMITTED=1, DOWNLINKED=2`). -/
inductive DownlinkState where
  | UNTRANSMITTED
  | TRANSMITTED
  | DOWNLINKED
deriving DecidableEq, Repr

/-- `Timer`: a duration and the start time recorded by `Timer::start` (the
un-started sentinel is a negative start time). -/
structure Timer where
  duration : ℚ
  start_time : ℚ
deriving DecidableEq, Repr

/-- `Timer::is_expired` at clock reading `now`: false when the timer was not
started, otherwise whether the elapsed time reaches the duration. -/
def Timer.is_expired (t : Timer) (now : ℚ) : Bool :=
  if t.start_time < 0 then false
  else decide (now - t.start_time ≥ t.duration)

/-! ## Greedy bin planner (`MaxMarginalRelevanceDownlinkPlanner.cpp`) -/

/-- `DpDbMsg`: one catalog row. -/
structure DpDbMsg where
  dp_id : ℤ
  instrument_name : String
  dp_type : String
  dp_uri : String
  dp_size : ℤ
  science_utility_estimate : ℚ
  priority_bin : ℤ
  downlink_state : DownlinkState
  metadata : AsdpEntry

/-- `_populate_asdp`: the row's metadata extended with the promoted
first-class fields.  (The C++ helper also returns a status, which is always
`SUCCESS`.) -/
def _populate_asdp (msg : DpDbMsg) : Status × AsdpEntry :=
  let asdp := msg.metadata
  let asdp := entrySet asdp "id" (DpMetadataValue.ofInt msg.dp_id)
  let asdp := entrySet asdp "instrument_name" (DpMetadataValue.ofString msg.instrument_name)
  let asdp := entrySet asdp "type" (DpMetadataValue.ofString msg.dp_type)
  let asdp := entrySet asdp "size" (DpMetadataValue.ofInt msg.dp_size)
  let asdp := entrySet asdp "science_utility_estimate"
    (DpMetadataValue.ofFloat (FVal.num msg.science_utility_estimate))
  let asdp := entrySet asdp "priority_bin" (DpMetadataValue.ofInt msg.priority_bin)
  (Status.SUCCESS, asdp)

/-- The best-candidate update of the inner scan of `_prioritize_bin`:
`(best_idx < 0) || (relative_utility > best_value)`, with the `best_idx = -1`
sentinel modelled as `none`. -/
def bestUpdate (best : Option (ℕ × FVal)) (idx : ℕ) (relative_utility : FVal) :
    Option (ℕ × FVal) :=
  match best with
  | none => some (idx, relative_utility)
  | some (best_idx, best_value) =>
      if fgt relative_utility best_value then some (idx, relative_utility)
      else some (best_idx, best_value)

/-- One pass of the candidate loop of `_prioritize_bin` over the remaining
pool.  For each candidate (scanned at index `idx`): build the candidate queue
from the entry as currently stored, compute the discount factor against the
queue built so far, store the freshly computed `final_science_utility_estimate`
back into the pool entry, gate on the rule set's constraints, and score
`(cumulative_sue + final_sue + adjustment) / (cumulative_size + size)`.
Returns the best `(index, score)`, the updated pool, and the updated memo
cache. -/
def scanCandidates (gexp : FVal → FVal) (bin : ℤ) (rs : RuleSet) (sim : Similarity)
    (prioritized : AsdpList) (cumulative_size : ℤ) (cumulative_sue : FVal) :
    List AsdpEntry → ℕ → Option (ℕ × FVal) → SimCache →
    Option (ℕ × FVal) × AsdpList × SimCache
  | [], _, best, cache => (best, [], cache)
  | asdp :: rest, idx, best, cache =>
      let candidate := prioritized ++ [asdp]
      match sim.get_discount_factor gexp cache bin prioritized asdp with
      | (discount_factor, cache') =>
          let final_sue :=
            fmul discount_factor (entryGet asdp "science_utility_estimate").get_float_value
          let asdp' := entrySet asdp "final_science_utility_estimate"
            (DpMetadataValue.ofFloat final_sue)
          let applied := rs.apply bin candidate
          let best' :=
            if applied.1 then
              let candidate_utility := fadd (fadd cumulative_sue final_sue) applied.2
              let candidate_size := cumulative_size + (entryGet asdp "size").get_int_value
              let relative_utility := fdiv candidate_utility (FVal.num (candidate_size : ℚ))
              bestUpdate best idx relative_utility
            else best
          match scanCandidates gexp bin rs sim prioritized cumulative_size cumulative_sue
              rest (idx + 1) best' cache' with
          | (best'', rest', cache'') => (best'', asdp' :: rest', cache'')

/-- The outer selection loop of `_prioritize_bin`, running at most `maxiter`
(the initial pool size) rounds and stopping when no valid successor exists.
Each round moves the best candidate (as updated by the scan) from the pool to
the prioritized queue and accumulates its size and final SUE. -/
def prioritizeLoop (gexp : FVal → FVal) (bin : ℤ) (rs : RuleSet) (sim : Similarity) :
    ℕ → AsdpList → AsdpList → ℤ → FVal → SimCache → AsdpList
  | 0, _, prioritized, _, _, _ => prioritized
  | n + 1, asdps, prioritized, cumulative_size, cumulative_sue, cache =>
      match scanCandidates gexp bin rs sim prioritized cumulative_size cumulative_sue
          asdps 0 none cache with
      | (none, _, _) => prioritized
      | (some (best_idx, _), asdps', cache') =>
          let best_asdp := asdps'.getD best_idx []
          let prioritized' := prioritized ++ [best_asdp]
          let asdps'' := asdps'.eraseIdx best_idx
          prioritizeLoop gexp bin rs sim
            n asdps'' prioritized'
            (cumulative_size + (entryGet best_asdp "size").get_int_value)
            (fadd cumulative_sue (entryGet best_asdp "final_science_utility_estimate").get_float_value)
            cache'

/-- `_prioritize_bin`: run the greedy selection and return the ids of the
prioritized entries in order.  The caller passes the similarity object by
value, so the memo cache starts as the caller's current cache. -/
def _prioritize_bin (gexp : FVal → FVal) (bin : ℤ) (asdps : AsdpList)
    (rs : RuleSet) (sim : Similarity) (cache : SimCache) : List ℤ :=
  (prioritizeLoop gexp bin rs sim asdps.length asdps [] 0 (FVal.num 0) cache).map
    (fun asdp => (entryGet asdp "id").get_int_value)

/-! ## `prioritize` (`MaxMarginalRelevanceDownlinkPlanner.cpp`) -/

/-- Sorted-map insertion of one entry into the per-bin buckets
(`std::map<int, AsdpList>`, ascending keys, append within a bucket). -/
def insertBinned : List (ℤ × AsdpList) → ℤ → AsdpEntry → List (ℤ × AsdpList)
  | [], bin, asdp => [(bin, [asdp])]
  | (b, l) :: rest, bin, asdp =>
      if bin = b then (b, l ++ [asdp]) :: rest
      else if bin < b then (bin, [asdp]) :: (b, l) :: rest
      else (b, l) :: insertBinned rest bin asdp

/-- The catalog-scan loop of `prioritize`: fetch each row, propagate any
non-success status, skip `DOWNLINKED` rows, and route the populated entry to
the `transmitted` list or its priority-bin bucket. -/
def scanLoop (db_get : ℤ → Status × DpDbMsg) :
    List ℤ → List (ℤ × AsdpList) → AsdpList →
    Except Status (List (ℤ × AsdpList) × AsdpList)
  | [], binned_asdps, transmitted => Except.ok (binned_asdps, transmitted)
  | dp_id :: rest, binned_asdps, transmitted =>
      let st := (db_get dp_id).1
      let msg := (db_get dp_id).2
      if st ≠ Status.SUCCESS then Except.error st
      else if msg.downlink_state = DownlinkState.DOWNLINKED then
        scanLoop db_get rest binned_asdps transmitted
      else
        let st2 := (_populate_asdp msg).1
        let asdp := (_populate_asdp msg).2
        if st2 ≠ Status.SUCCESS then Except.error st2
        else if msg.downlink_state = DownlinkState.TRANSMITTED then
          scanLoop db_get rest binned_asdps (transmitted ++ [asdp])
        else
          scanLoop db_get rest (insertBinned binned_asdps msg.priority_bin asdp) transmitted

/-- `MaxMarginalRelevanceDownlinkPlanner::prioritize`.  The parsed rule and
similarity configurations are passed in directly (`parse_rule_config` /
`parse_similarity_config` are JSON-loading collaborators); `t0` and `t1` are
the two wall-clock readings (at `Timer::start` and at the single
`Timer::is_expired` check after the catalog scan); `prioritized_list` is the
caller's output vector, to which ids are appended per bin in ascending bin
order.  Each `_prioritize_bin` call receives the similarity object by value
with its (still empty) memo cache. -/
def prioritize (gexp : FVal → FVal) (rs : RuleSet) (sim : Similarity)
    (t0 t1 max_processing_time_sec : ℚ) (dp_ids : List ℤ)
    (db_get : ℤ → Status × DpDbMsg) (prioritized_list : List ℤ) :
    Status × List ℤ :=
  let timer : Timer := ⟨max_processing_time_sec, t0⟩
  match scanLoop db_get dp_ids [] [] with
  | Except.error st => (st, prioritized_list)
  | Except.ok (binned_asdps, _transmitted) =>
      if timer.is_expired t1 then (Status.TIMEOUT, prioritized_list)
      else
        (Status.SUCCESS,
         binned_asdps.foldl
           (fun acc entry => acc ++ _prioritize_bin gexp entry.1 entry.2 rs sim [])
           prioritized_list)

/-! ## Specification-side comparison dispatch

These two definitions transcribe the spec's description of the comparator
("if both sides are numeric, compare as double; if both are strings, only
`==` and `!=` are supported") for comparison against the embedded evaluator. -/

/-- Numeric comparison dispatch as described by the spec: compare as doubles,
unknown comparators yield false. -/
def specNumCompare (comp : String) (a b : FVal) : Bool :=
  if comp = "==" then feq a b
  else if comp = "!=" then fne a b
  else if comp = ">" then fgt a b
  else if comp = ">=" then fge a b
  else if comp = "<" then flt a b
  else if comp = "<=" then fle a b
  else false

/-- String comparison dispatch as described by the spec: only equality and
inequality are supported, anything else yields false. -/
def specStrCompare (comp : String) (a b : String) : Bool :=
  if comp = "==" then a = b
  else if comp = "!=" then a ≠ b
  else false

/-- C7: boolean binary expressions short-circuit.  If the left side of an
`AND` evaluates to false, the whole expression evaluates to false and its
value does not depend on the right side (the pure-model rendering of "the
right side is not evaluated"); dually, if the left side of an `OR` evaluates
to true, the whole expression evaluates to true independently of the right
side. -/
theorem c7_short_circuit (asg : AsdpAssignments) (asdps : AsdpList) (l r : BoolExpr) :
    (l.get_value asg asdps = false →
      (BoolExpr.BinaryLogicalExpression "AND" l r).get_value asg asdps = false ∧
      ∀ r' : BoolExpr,
        (BoolExpr.BinaryLogicalExpression "AND" l r).get_value asg asdps =
          (BoolExpr.BinaryLogicalExpression "AND" l r').get_value asg asdps) ∧
    (l.get_value asg asdps = true →
      (BoolExpr.BinaryLogicalExpression "OR" l r).get_value asg asdps = true ∧
      ∀ r' : BoolExpr,
        (BoolExpr.BinaryLogicalExpression "OR" l r).get_value asg asdps =
          (BoolExpr.BinaryLogicalExpression "OR" l r').get_value asg asdps) := by
  constructor <;> intro h <;>
    refine ⟨?_, fun r' => ?_⟩ <;> simp [BoolExpr.get_value, h]

/-- Witness for `c7_short_circuit` at concrete expressions. -/
theorem c7_short_circuit_witness :
    (BoolExpr.BinaryLogicalExpression "AND" (BoolExpr.LogicalConstant false)
      (BoolExpr.LogicalConstant true)).get_value [] [] = false ∧
    (BoolExpr.BinaryLogicalExpression "OR" (BoolExpr.LogicalConstant true)
      (BoolExpr.LogicalConstant false)).get_value [] [] = true :=
  ⟨((c7_short_circuit [] [] (BoolExpr.LogicalConstant false)
      (BoolExpr.LogicalConstant true)).1 rfl).1,
   ((c7_short_circuit [] [] (BoolExpr.LogicalConstant true)
      (BoolExpr.LogicalConstant false)).2 rfl).1⟩

/-- C8: comparator evaluation.  When both operand values are numeric the
comparison is performed as doubles (via `get_numeric`); when both are strings
only `==` and `!=` compare and any other comparator yields false; when
exactly one operand is numeric the result is false.  All failures are the
value `false` — the evaluator is a total function. -/
theorem c8_comparator (comp : String) (l r : ValExpr)
    (asg : AsdpAssignments) (asdps : AsdpList) :
    ((l.get_value asg asdps).is_numeric = true →
      (r.get_value asg asdps).is_numeric = true →
      (BoolExpr.ComparatorExpression comp l r).get_value asg asdps =
        specNumCompare comp (l.get_value asg asdps).get_numeric
          (r.get_value asg asdps).get_numeric) ∧
    ((l.get_value asg asdps).is_numeric = false →
      (r.get_value asg asdps).is_numeric = false →
      (BoolExpr.ComparatorExpression comp l r).get_value asg asdps =
        specStrCompare comp (l.get_value asg asdps).get_string_value
          (r.get_value asg asdps).get_string_value) ∧
    ((l.get_value asg asdps).is_numeric ≠ (r.get_value asg asdps).is_numeric →
      (BoolExpr.ComparatorExpression comp l r).get_value asg asdps = false) := by
  refine ⟨fun h1 h2 => ?_, fun h1 h2 => ?_, fun h => ?_⟩
  · simp [BoolExpr.get_value, h1, h2, specNumCompare]
  · simp [BoolExpr.get_value, h1, h2, specStrCompare]
  · rcases h1 : (l.get_value asg asdps).is_numeric <;>
      rcases h2 : (r.get_value asg asdps).is_numeric <;>
      simp [h1, h2] at h ⊢ <;>
      simp [BoolExpr.get_value, h1, h2]

/-- Witness for `c8_comparator`: a numeric/string mismatch yields false, and
two numeric operands compare as doubles. -/
theorem c8_comparator_witness :
    (BoolExpr.ComparatorExpression "<" (ValExpr.ConstExpression 1)
      (ValExpr.StringConstant "a")).get_value [] [] = false ∧
    (BoolExpr.ComparatorExpression "<" (ValExpr.ConstExpression 1)
      (ValExpr.ConstExpression 2)).get_value [] [] =
      specNumCompare "<" (FVal.num 1) (FVal.num 2) :=
  ⟨(c8_comparator "<" (ValExpr.ConstExpression 1) (ValExpr.StringConstant "a") [] []).2.2
     (by simp [ValExpr.get_value, DpMetadataValue.ofFloat, DpMetadataValue.ofString,
               DpMetadataValue.is_numeric]),
   (c8_comparator "<" (ValExpr.ConstExpression 1) (ValExpr.ConstExpression 2) [] []).1
     rfl rfl⟩

/-! ## C4: `RuleSet::apply` -/

/-- The first-failure constraint scan computes the same boolean as checking
all constraints. -/
theorem checkConstraints_eq_all (cs : List Constraint) (queue : AsdpList) :
    checkConstraints cs queue = cs.all (fun c => c.apply queue) := by
  induction cs with
  | nil => rfl
  | cons c rest ih => by_cases h : c.apply queue <;> simp [checkConstraints, h, ih]

/-- C4: `RuleSet.apply` evaluates the bin's constraints (with fallback to the
defaults, via `get_constraints`); if any constraint is unsatisfied it returns
`(false, 0.0)` without contribution from any rule, and if all constraints are
satisfied it returns `(true, s)` with `s` the sum of `rule.apply queue` over
the bin's rules. -/
theorem c4_ruleset_apply (rs : RuleSet) (bin : ℤ) (queue : AsdpList) :
    ((∃ c ∈ rs.get_constraints bin, c.apply queue = false) →
      rs.apply bin queue = (false, FVal.num 0)) ∧
    ((∀ c ∈ rs.get_constraints bin, c.apply queue = true) →
      rs.apply bin queue =
        (true, ((rs.get_rules bin).map (fun r => r.apply queue)).foldl fadd (FVal.num 0))) := by
  constructor
  · rintro ⟨c, hc, hfail⟩
    have hall : (rs.get_constraints bin).all (fun c => c.apply queue) = false :=
      List.all_eq_false.mpr ⟨c, hc, by simp [hfail]⟩
    simp [RuleSet.apply, checkConstraints_eq_all, hall]
  · intro hsat
    have hall : (rs.get_constraints bin).all (fun c => c.apply queue) = true := by
      simp only [List.all_eq_true]; exact fun c hc => hsat c hc
    simp [RuleSet.apply, checkConstraints_eq_all, hall, List.foldl_map]

/-- Witness for `c4_ruleset_apply`: an always-failing constraint (count mode
with bound 0) makes the empty-bin rule set reject, and the empty rule set
accepts with sum 0. -/
theorem c4_ruleset_apply_witness :
    (RuleSet.mk [] [(0, [Constraint.mk ["x"] (BoolExpr.LogicalConstant true) none 0])]
        [] []).apply 0 [[]] = (false, FVal.num 0) ∧
    RuleSet.empty.apply 0 [[]] = (true, FVal.num 0) :=
  ⟨(c4_ruleset_apply
      (RuleSet.mk [] [(0, [Constraint.mk ["x"] (BoolExpr.LogicalConstant true) none 0])] [] [])
      0 [[]]).1
      ⟨Constraint.mk ["x"] (BoolExpr.LogicalConstant true) none 0,
        by simp [RuleSet.get_constraints, lookupMap],
        by with_unfolding_all rfl⟩,
   (c4_ruleset_apply RuleSet.empty 0 [[]]).2
      (by simp [RuleSet.get_constraints, RuleSet.empty, lookupMap])⟩

/-! ## C9: `Constraint::apply` -/

/-- The aggregate as the spec words it: the sum of numeric `sum_field` values
over the ASDPs satisfying the application predicate, or the count of such
ASDPs when `sum_field` is absent. -/
def specAggregate (c : Constraint) (v : String) (asdps : AsdpList) : FVal :=
  let satisfying := asdps.filter
    (fun a => c.application_expression.get_value [(v, a)] asdps)
  match c.sum_field with
  | some sf =>
      satisfying.foldl
        (fun agg a =>
          let value := sf.get_value [(v, a)] asdps
          if value.is_numeric then fadd agg value.get_numeric else agg)
        (FVal.num 0)
  | none => FVal.num (satisfying.length : ℚ)

/-- The constraint aggregation loop is the fold over the satisfying entries
(in sum-field mode). -/
theorem constraintLoop_sum (c : Constraint) (v : String) (asdps : AsdpList)
    (sf : ValExpr) (hsf : c.sum_field = some sf) :
    ∀ (l : List AsdpEntry) (agg : FVal),
      constraintLoop c v asdps l agg =
        (l.filter (fun a => c.application_expression.get_value [(v, a)] asdps)).foldl
          (fun agg a =>
            let value := sf.get_value [(v, a)] asdps
            if value.is_numeric then fadd agg value.get_numeric else agg)
          agg := by
  intro l
  induction l with
  | nil => intro agg; rfl
  | cons a rest ih =>
      intro agg
      by_cases h : c.application_expression.get_value [(v, a)] asdps
      · by_cases hn : (sf.get_value [(v, a)] asdps).is_numeric <;>
          simp [constraintLoop, h, hsf, hn, ih, List.filter_cons]
      · simp [constraintLoop, h, hsf, ih, List.filter_cons]

/-- The constraint aggregation loop counts the satisfying entries (in count
mode). -/
theorem constraintLoop_count (c : Constraint) (v : String) (asdps : AsdpList)
    (hsf : c.sum_field = none) :
    ∀ (l : List AsdpEntry) (q : ℚ),
      constraintLoop c v asdps l (FVal.num q) =
        FVal.num (q + ((l.filter
          (fun a => c.application_expression.get_value [(v, a)] asdps)).length : ℚ)) := by
  intro l
  induction l with
  | nil => intro q; simp [constraintLoop]
  | cons a rest ih =>
      intro q
      by_cases h : c.application_expression.get_value [(v, a)] asdps
      · simp [constraintLoop, h, hsf, fadd, ih, List.filter_cons]
        ring
      · simp [constraintLoop, h, ih, List.filter_cons]

/-- C9: for a single-variable constraint, `Constraint.apply` returns true
exactly when the aggregate (sum of numeric `sum_field` values over satisfying
ASDPs, or their count without `sum_field`) is strictly below the bound; in
particular, with an always-false application predicate and a `sum_field`
present it returns true iff `0 < bound`. -/
theorem c9_constraint_apply (c : Constraint) (v : String) (asdps : AsdpList)
    (hv : c._variables = [v]) :
    c.apply asdps = flt (specAggregate c v asdps) (FVal.num c.constraint_value) ∧
    ((∀ a ∈ asdps, c.application_expression.get_value [(v, a)] asdps = false) →
      c.sum_field.isSome →
      (c.apply asdps = true ↔ 0 < c.constraint_value)) := by
  have hmain : c.apply asdps = flt (specAggregate c v asdps) (FVal.num c.constraint_value) := by
    rcases hsf : c.sum_field with _ | sf
    · simp only [Constraint.apply, hv, specAggregate, hsf,
        constraintLoop_count c v asdps hsf asdps 0, zero_add]
    · simp only [Constraint.apply, hv, specAggregate, hsf,
        constraintLoop_sum c v asdps sf hsf asdps (FVal.num 0)]
  refine ⟨hmain, fun hfalse hsome => ?_⟩
  rcases hsf : c.sum_field with _ | sf
  · rw [hsf] at hsome; cases hsome
  · have hfilter : asdps.filter
        (fun a => c.application_expression.get_value [(v, a)] asdps) = [] := by
      rw [List.filter_eq_nil_iff]; intro a ha; simp [hfalse a ha]
    rw [hmain]
    simp [specAggregate, hsf, hfilter, flt]

/-- Witness for `c9_constraint_apply`: a constraint with an always-false
predicate, a present `sum_field`, and bound 1 accepts any list (0 < 1). -/
theorem c9_constraint_apply_witness :
    (Constraint.mk ["x"] (BoolExpr.LogicalConstant false)
      (some (ValExpr.ConstExpression 2)) 1).apply [[]] = true :=
  ((c9_constraint_apply
      (Constraint.mk ["x"] (BoolExpr.LogicalConstant false)
        (some (ValExpr.ConstExpression 2)) 1) "x" [[]] rfl).2
    (by intro a _; rfl) rfl).mpr (by norm_num)

/-! ## C2: `Rule::apply` and `max_applications` -/

/-- Bound for the single-variable rule loop: starting from a counter that is
zero or strictly below the cap, the final counter stays at or below
`max(cap, 1)`. -/
theorem ruleLoop1_bound (r : Rule) (v : String) (asdps : AsdpList)
    (hk : 0 ≤ r.max_applications) :
    ∀ (l : List AsdpEntry) (total : FVal) (n : ℤ),
      (n = 0 ∨ n < r.max_applications) →
      (ruleLoop1 r v asdps l (total, n)).2 ≤ max r.max_applications 1 := by
  intro l
  induction l with
  | nil => intro total n hn; rcases hn with h | h <;> simp [ruleLoop1] <;> omega
  | cons a rest ih =>
      intro total n hn
      rcases happ : r.application_expression.get_value [(v, a)] asdps with _ | _
      · simp only [ruleLoop1, happ, Bool.false_eq_true, if_false]
        exact ih total n hn
      · rcases hnum : (r.adjustment_expression.get_value [(v, a)] asdps).is_numeric with _ | _
        · by_cases hbrk : 0 ≤ r.max_applications ∧ r.max_applications ≤ n
          · (simp [ruleLoop1, happ, hnum, hbrk]; omega)
          · simp only [ruleLoop1, happ, hnum, Bool.false_eq_true, if_false, if_true, hbrk]
            exact ih total n hn
        · by_cases hbrk : 0 ≤ r.max_applications ∧ r.max_applications ≤ n + 1
          · (simp [ruleLoop1, happ, hnum, hbrk]; omega)
          · simp only [ruleLoop1, happ, hnum, if_true, hbrk, if_false]
            exact ih _ (n + 1) (by omega)

/-- Bound for the inner loop of the two-variable rule case (same invariant as
the single-variable loop). -/
theorem ruleLoop2Inner_bound (r : Rule) (v1 v2 : String) (asdps : AsdpList) (a : AsdpEntry)
    (hk : 0 ≤ r.max_applications) :
    ∀ (l : List AsdpEntry) (total : FVal) (n : ℤ),
      (n = 0 ∨ n < r.max_applications) →
      (ruleLoop2Inner r v1 v2 asdps a l (total, n)).2 ≤ max r.max_applications 1 ∧
      ((ruleLoop2Inner r v1 v2 asdps a l (total, n)).2 < r.max_applications ∨
        r.max_applications ≤ (ruleLoop2Inner r v1 v2 asdps a l (total, n)).2) := by
  intro l
  induction l with
  | nil => intro total n hn; rcases hn with h | h <;> simp [ruleLoop2Inner] <;> omega
  | cons b rest ih =>
      intro total n hn
      rcases happ : r.application_expression.get_value [(v1, a), (v2, b)] asdps with _ | _
      · simp only [ruleLoop2Inner, happ, Bool.false_eq_true, if_false]
        exact ih total n hn
      · rcases hnum :
          (r.adjustment_expression.get_value [(v1, a), (v2, b)] asdps).is_numeric with _ | _
        · by_cases hbrk : 0 ≤ r.max_applications ∧ r.max_applications ≤ n
          · (simp [ruleLoop2Inner, happ, hnum, hbrk]; omega)
          · simp only [ruleLoop2Inner, happ, hnum, Bool.false_eq_true, if_false, if_true, hbrk]
            exact ih total n hn
        · by_cases hbrk : 0 ≤ r.max_applications ∧ r.max_applications ≤ n + 1
          · (simp [ruleLoop2Inner, happ, hnum, hbrk]; omega)
          · simp only [ruleLoop2Inner, happ, hnum, if_true, hbrk, if_false]
            exact ih _ (n + 1) (by omega)

/-- Bound for the outer loop of the two-variable rule case: the outer loop
re-checks the cap after each inner run. -/
theorem ruleLoop2Outer_bound (r : Rule) (v1 v2 : String) (asdps : AsdpList)
    (hk : 0 ≤ r.max_applications) :
    ∀ (l : List AsdpEntry) (total : FVal) (n : ℤ),
      (n = 0 ∨ n < r.max_applications) →
      (ruleLoop2Outer r v1 v2 asdps l (total, n)).2 ≤ max r.max_applications 1 := by
  intro l
  induction l with
  | nil => intro total n hn; rcases hn with h | h <;> simp [ruleLoop2Outer] <;> omega
  | cons a rest ih =>
      intro total n hn
      simp only [ruleLoop2Outer]
      obtain ⟨hb, _⟩ := ruleLoop2Inner_bound r v1 v2 asdps a hk asdps total n hn
      by_cases hbrk : 0 ≤ r.max_applications ∧
          r.max_applications ≤ (ruleLoop2Inner r v1 v2 asdps a asdps (total, n)).2
      · simpa [hbrk] using hb
      · have hlt : (ruleLoop2Inner r v1 v2 asdps a asdps (total, n)).2 <
            r.max_applications := by omega
        rcases h2 : ruleLoop2Inner r v1 v2 asdps a asdps (total, n) with ⟨total', n'⟩
        rw [h2] at hlt hbrk
        simpa [hbrk] using ih total' n' (Or.inr hlt)

/-- C2 (amended): for a rule with `max_applications = k ≥ 0`, the number of
adjustment accumulations performed by `Rule.apply` is at most `max(k, 1)`:
at most `k` whenever `k ≥ 1`, while for `k = 0` a single accumulation may
occur because the cap is only checked after an accumulation.  Both the inner
and the outer iteration of the two-variable case stop once the cap has been
reached. -/
theorem c2_max_applications (r : Rule) (asdps : AsdpList)
    (hk : 0 ≤ r.max_applications) :
    (r.applyAux asdps).2 ≤ max r.max_applications 1 := by
  rcases hv : r._variables with _ | ⟨v, vs⟩
  · simp only [Rule.applyAux, hv]
    omega
  · rcases vs with _ | ⟨v2, vs2⟩
    · simp only [Rule.applyAux, hv]
      exact ruleLoop1_bound r v asdps hk asdps (FVal.num 0) 0 (Or.inl rfl)
    · rcases vs2 with _ | _
      · simp only [Rule.applyAux, hv]
        exact ruleLoop2Outer_bound r v v2 asdps hk asdps (FVal.num 0) 0 (Or.inl rfl)
      · simp only [Rule.applyAux, hv]
        omega

/-- Witness for `c2_max_applications` at a concrete rule with cap 2. -/
theorem c2_max_applications_witness :
    ((Rule.mk ["x"] (BoolExpr.LogicalConstant true) (ValExpr.ConstExpression 1) 2).applyAux
      [[], [], []]).2 ≤ max (2 : ℤ) 1 :=
  c2_max_applications
    (Rule.mk ["x"] (BoolExpr.LogicalConstant true) (ValExpr.ConstExpression 1) 2)
    [[], [], []] (by norm_num)

/-- C2 counterexample: the claim's bound "at most `k` accumulations" fails at
`k = 0`.  A single-variable rule with `max_applications = 0`, an always-true
application and the constant adjustment 1.0 performs one accumulation on a
one-element list, because the cap is checked only after the accumulation. -/
theorem c2_counterexample :
    ((Rule.mk ["x"] (BoolExpr.LogicalConstant true) (ValExpr.ConstExpression 1) 0).applyAux
      [[]]).2 = 1 ∧
    ¬(((Rule.mk ["x"] (BoolExpr.LogicalConstant true) (ValExpr.ConstExpression 1) 0).applyAux
      [[]]).2 ≤
      (Rule.mk ["x"] (BoolExpr.LogicalConstant true) (ValExpr.ConstExpression 1)
        0).max_applications) := by
  constructor
  · with_unfolding_all rfl
  · intro h
    have h1 : ((Rule.mk ["x"] (BoolExpr.LogicalConstant true)
        (ValExpr.ConstExpression 1) 0).applyAux [[]]).2 = 1 := by
      with_unfolding_all rfl
    rw [h1] at h
    exact absurd h (by norm_num)

/-! ## C6: similarity cache commutativity -/

/-- The squared-distance accumulator is symmetric in the two vectors. -/
theorem sqDistLoop_comm : ∀ (l1 l2 : List FVal) (acc : FVal),
    sqDistLoop l1 l2 acc = sqDistLoop l2 l1 acc := by
  intro l1
  induction l1 with
  | nil => intro l2 acc; cases l2 <;> rfl
  | cons x xs ih =>
      intro l2 acc
      cases l2 with
      | nil => rfl
      | cons y ys =>
          simp only [sqDistLoop]
          have h : fmul (fsub x y) (fsub x y) = fmul (fsub y x) (fsub y x) := by
            cases x <;> cases y <;> (simp [fsub, fmul]; try ring)
          rw [h, ih]

/-- `SimilarityFunction::get_similarity` is symmetric in its two ASDPs, for
every kernel and every model of `exp`. -/
theorem get_similarity_comm (gexp : FVal → FVal) (f : SimilarityFunction)
    (a b : AsdpEntry) :
    f.get_similarity gexp a b = f.get_similarity gexp b a := by
  simp only [SimilarityFunction.get_similarity, _gaussian_similarity, _sq_euclidean_dist]
  rw [sqDistLoop_comm (f._extract_dd a) (f._extract_dd b)]

/-- The memo-cache key does not depend on the argument order. -/
theorem sortedKey_comm (a b : AsdpEntry) : sortedKey a b = sortedKey b a := by
  unfold sortedKey
  rcases lt_trichotomy (entryGet a "id").get_int_value (entryGet b "id").get_int_value with
    h | h | h
  · rw [if_pos h, if_neg (by omega)]
  · rw [if_neg (by omega), if_neg (by omega), h]
  · rw [if_neg (by omega), if_pos h]

/-- C6: the memoized similarity lookup commutes in its arguments — the value
and the updated cache are both independent of the argument order — and the
cache is keyed by the sorted id pair: the updated cache binds the sorted key
to the returned value and agrees with the original cache on every other
key. -/
theorem c6_cache_commutes (gexp : FVal → FVal) (f : SimilarityFunction)
    (cache : SimCache) (a b : AsdpEntry) (k : ℤ × ℤ) :
    Similarity._get_cached_similarity gexp f cache a b =
      Similarity._get_cached_similarity gexp f cache b a ∧
    lookupCache (Similarity._get_cached_similarity gexp f cache a b).2 (sortedKey a b) =
      some (Similarity._get_cached_similarity gexp f cache a b).1 ∧
    (k ≠ sortedKey a b →
      lookupCache (Similarity._get_cached_similarity gexp f cache a b).2 k =
        lookupCache cache k) := by
  refine ⟨?_, ?_, ?_⟩
  · unfold Similarity._get_cached_similarity
    rw [sortedKey_comm, get_similarity_comm]
  · unfold Similarity._get_cached_similarity
    rcases h : lookupCache cache (sortedKey a b) with _ | s
    · simp [h, lookupCache]
    · simp [h]
  · intro hk
    unfold Similarity._get_cached_similarity
    rcases h : lookupCache cache (sortedKey a b) with _ | s
    · simp [h, lookupCache, Ne.symm hk]
    · simp [h]

/-- Witness for `c6_cache_commutes` at concrete entries and a concrete
off-key. -/
theorem c6_cache_commutes_witness :
    Similarity._get_cached_similarity (fun _ => FVal.num 0)
        (SimilarityFunction.mk [] [] "gaussian" []) []
        [("id", DpMetadataValue.ofInt 1)] [("id", DpMetadataValue.ofInt 2)] =
      Similarity._get_cached_similarity (fun _ => FVal.num 0)
        (SimilarityFunction.mk [] [] "gaussian" []) []
        [("id", DpMetadataValue.ofInt 2)] [("id", DpMetadataValue.ofInt 1)] ∧
    lookupCache (Similarity._get_cached_similarity (fun _ => FVal.num 0)
        (SimilarityFunction.mk [] [] "gaussian" []) []
        [("id", DpMetadataValue.ofInt 1)] [("id", DpMetadataValue.ofInt 2)]).2
      (sortedKey [("id", DpMetadataValue.ofInt 1)] [("id", DpMetadataValue.ofInt 2)]) =
      some (Similarity._get_cached_similarity (fun _ => FVal.num 0)
        (SimilarityFunction.mk [] [] "gaussian" []) []
        [("id", DpMetadataValue.ofInt 1)] [("id", DpMetadataValue.ofInt 2)]).1 ∧
    lookupCache (Similarity._get_cached_similarity (fun _ => FVal.num 0)
        (SimilarityFunction.mk [] [] "gaussian" []) []
        [("id", DpMetadataValue.ofInt 1)] [("id", DpMetadataValue.ofInt 2)]).2 (5, 7) =
      lookupCache [] (5, 7) :=
  ⟨(c6_cache_commutes (fun _ => FVal.num 0) (SimilarityFunction.mk [] [] "gaussian" []) []
      [("id", DpMetadataValue.ofInt 1)] [("id", DpMetadataValue.ofInt 2)] (5, 7)).1,
   (c6_cache_commutes (fun _ => FVal.num 0) (SimilarityFunction.mk [] [] "gaussian" []) []
      [("id", DpMetadataValue.ofInt 1)] [("id", DpMetadataValue.ofInt 2)] (5, 7)).2.1,
   (c6_cache_commutes (fun _ => FVal.num 0) (SimilarityFunction.mk [] [] "gaussian" []) []
      [("id", DpMetadataValue.ofInt 1)] [("id", DpMetadataValue.ofInt 2)] (5, 7)).2.2
     (by with_unfolding_all decide)⟩

/-! ## C5: the discount factor -/

/-- The effective alpha of a bin: the bin's entry in the alpha map, or the
default alpha. -/
def Similarity.alphaFor (s : Similarity) (bin : ℤ) : ℚ :=
  match lookupMap s._alpha bin with
  | some a => a
  | none => s._default_alpha

/-- C5 (amended): the discount factor equals
`(1 - alpha) + alpha * (1 - max_similarity)` with alpha the bin's entry or
the default (initially 1.0), threading the cache of the max-similarity
computation; under the hypotheses `0 ≤ max_similarity ≤ 1` **and `0 ≤ alpha`**
the factor equals `1 - alpha * max_similarity` and lies in `[1 - alpha, 1]`;
and for an empty queue the max similarity is 0, so the factor is 1 for every
alpha. -/
theorem c5_discount_factor (gexp : FVal → FVal) (s : Similarity) (cache : SimCache)
    (bin : ℤ) (queue : AsdpList) (asdp : AsdpEntry) :
    (s.get_discount_factor gexp cache bin queue asdp =
      (fadd (FVal.num (1 - s.alphaFor bin))
        (fmul (FVal.num (s.alphaFor bin))
          (fsub (FVal.num 1) (s.get_max_similarity gexp cache bin queue asdp).1)),
       (s.get_max_similarity gexp cache bin queue asdp).2)) ∧
    (∀ m : ℚ, (s.get_max_similarity gexp cache bin queue asdp).1 = FVal.num m →
      0 ≤ m → m ≤ 1 → 0 ≤ s.alphaFor bin →
      (s.get_discount_factor gexp cache bin queue asdp).1 =
        FVal.num (1 - s.alphaFor bin * m) ∧
      1 - s.alphaFor bin ≤ 1 - s.alphaFor bin * m ∧
      1 - s.alphaFor bin * m ≤ 1) ∧
    (queue = [] →
      (s.get_max_similarity gexp cache bin queue asdp).1 = FVal.num 0 ∧
      (s.get_discount_factor gexp cache bin queue asdp).1 = FVal.num 1) ∧
    Similarity.emptyConfig._default_alpha = 1 := by
  have hdf : s.get_discount_factor gexp cache bin queue asdp =
      (fadd (FVal.num (1 - s.alphaFor bin))
        (fmul (FVal.num (s.alphaFor bin))
          (fsub (FVal.num 1) (s.get_max_similarity gexp cache bin queue asdp).1)),
       (s.get_max_similarity gexp cache bin queue asdp).2) := by
    unfold Similarity.get_discount_factor Similarity.alphaFor
    rcases hms : s.get_max_similarity gexp cache bin queue asdp with ⟨ms, cache'⟩
    rcases lookupMap s._alpha bin with _ | av <;> rfl
  refine ⟨hdf, fun m hm h0 h1 ha => ?_, fun hq => ?_, rfl⟩
  · have hval : (s.get_discount_factor gexp cache bin queue asdp).1 =
        FVal.num (1 - s.alphaFor bin * m) := by
      rw [hdf]; simp only [hm, fsub, fmul, fadd]
      congr 1
      ring
    refine ⟨hval, ?_, ?_⟩
    · nlinarith [mul_le_of_le_one_right ha h1]
    · nlinarith [mul_nonneg ha h0]
  · have hms : (s.get_max_similarity gexp cache bin queue asdp).1 = FVal.num 0 := by
      subst hq; rfl
    refine ⟨hms, ?_⟩
    rw [hdf]; simp only [hms, fsub, fmul, fadd]
    congr 1
    ring

/-- Witness for `c5_discount_factor` on a concrete configuration with
`alpha = 1/2` for bin 0 and an empty queue. -/
theorem c5_discount_factor_witness :
    ((Similarity.mk [(0, 1/2)] 1 [] []).get_discount_factor (fun _ => FVal.num 0) [] 0 [] []).1 =
      FVal.num (1 - (Similarity.mk [(0, 1/2)] 1 [] []).alphaFor 0 * 0) ∧
    1 - (Similarity.mk [(0, 1/2)] 1 [] []).alphaFor 0 ≤
      1 - (Similarity.mk [(0, 1/2)] 1 [] []).alphaFor 0 * 0 :=
  ⟨((c5_discount_factor (fun _ => FVal.num 0) (Similarity.mk [(0, 1/2)] 1 [] []) [] 0 [] []).2.1
      0 rfl le_rfl zero_le_one (by norm_num [Similarity.alphaFor, lookupMap])).1,
   ((c5_discount_factor (fun _ => FVal.num 0) (Similarity.mk [(0, 1/2)] 1 [] []) [] 0 [] []).2.1
      0 rfl le_rfl zero_le_one (by norm_num [Similarity.alphaFor, lookupMap])).2.1⟩

/-- C5 counterexample: with a negative configured alpha (here `alpha = -1`
for bin 0) and an empty queue, the max similarity is 0 (within `[0, 1]`) and
the discount factor is 1, yet the claim's asserted interval `[1 - alpha, 1]`
requires `1 - alpha ≤ 1`, which fails: the factor does not lie in the
interval. -/
theorem c5_counterexample :
    ((Similarity.mk [(0, -1)] 1 [] []).get_max_similarity (fun _ => FVal.num 0) [] 0 [] []).1 =
      FVal.num 0 ∧
    ((Similarity.mk [(0, -1)] 1 [] []).get_discount_factor (fun _ => FVal.num 0) [] 0 [] []).1 =
      FVal.num 1 ∧
    ¬(1 - (Similarity.mk [(0, -1)] 1 [] []).alphaFor 0 ≤ 1) := by
  refine ⟨rfl, ?_, ?_⟩
  · with_unfolding_all rfl
  · norm_num [Similarity.alphaFor, lookupMap]

/-! ## C1: the single-bin greedy scenario -/

/-- A minimal catalog row for the C1 scenario: id `i`, size `sz`, SUE `sue`,
bin 0, untransmitted, no extra metadata. -/
def c1Row (i sz : ℤ) (sue : ℚ) : DpDbMsg :=
  ⟨i, "", "", "", sz, sue, 0, DownlinkState.UNTRANSMITTED, []⟩

/-- The populated entry of a C1 row. -/
def c1Entry (i sz : ℤ) (sue : ℚ) : AsdpEntry := (_populate_asdp (c1Row i sz sue)).2

/-- C1 counterexample: on the spec's scenario — ASDPs (size, SUE) =
(10, 1.0), (20, 3.0), (40, 5.0) with ids 1, 2, 3, no rules, no constraints,
no similarity functions — the planner does **not** return `[2, 3, 1]`.
After id 2 is selected, ids 1 and 3 tie exactly ((3+1)/30 = (3+5)/60 = 2/15,
an exact tie in IEEE doubles as well) and the strict-`>` tie-break keeps the
first-encountered candidate, so the code returns `[2, 1, 3]`. -/
theorem c1_counterexample :
    _prioritize_bin (fun _ => FVal.num 0) 0
      [c1Entry 1 10 1, c1Entry 2 20 3, c1Entry 3 40 5]
      RuleSet.empty Similarity.emptyConfig [] ≠ [2, 3, 1] := by
  have h : _prioritize_bin (fun _ => FVal.num 0) 0
      [c1Entry 1 10 1, c1Entry 2 20 3, c1Entry 3 40 5]
      RuleSet.empty Similarity.emptyConfig [] = [2, 1, 3] := by
    with_unfolding_all rfl
  rw [h]
  decide

/-- C1 (amended): on the spec's scenario the greedy planner returns
`[2, 1, 3]` for every model of `exp` (the similarity machinery is inert):
id 2 wins the first round by ratio 0.15, after which ids 1 and 3 tie at
cumulative relative utility 2/15 and the strict-`>` tie-break keeps the
first-encountered candidate (id 1).  In general, a candidate whose score does
not strictly exceed the current best never displaces it. -/
theorem c1_greedy_order (gexp : FVal → FVal) :
    _prioritize_bin gexp 0 [c1Entry 1 10 1, c1Entry 2 20 3, c1Entry 3 40 5]
      RuleSet.empty Similarity.emptyConfig [] = [2, 1, 3] ∧
    (∀ (best_idx : ℕ) (best_value : FVal) (idx : ℕ) (relative_utility : FVal),
      fgt relative_utility best_value = false →
      bestUpdate (some (best_idx, best_value)) idx relative_utility =
        some (best_idx, best_value)) := by
  constructor
  · with_unfolding_all rfl
  · intro best_idx best_value idx relative_utility h
    simp [bestUpdate, h]

/-- Witness for `c1_greedy_order`: the concrete run, and the tie case
`fgt (2/15) (2/15) = false` leaving the earlier index in place. -/
theorem c1_greedy_order_witness :
    _prioritize_bin (fun _ => FVal.num 0) 0
      [c1Entry 1 10 1, c1Entry 2 20 3, c1Entry 3 40 5]
      RuleSet.empty Similarity.emptyConfig [] = [2, 1, 3] ∧
    bestUpdate (some (0, FVal.num (2/15))) 1 (FVal.num (2/15)) =
      some (0, FVal.num (2/15)) :=
  ⟨(c1_greedy_order (fun _ => FVal.num 0)).1,
   (c1_greedy_order (fun _ => FVal.num 0)).2 0 (FVal.num (2/15)) 1 (FVal.num (2/15))
     (by with_unfolding_all rfl)⟩

/-! ## C3: timeout and catalog failure in `prioritize` -/

/-- C3: if the deadline has expired at the single check after the catalog
scan (the scan itself having succeeded), `prioritize` returns `TIMEOUT` with
the output list exactly as it was — no partial list; and if a catalog get
fails during the scan, `prioritize` returns that non-success status with the
output list unchanged. -/
theorem c3_timeout_and_failure (gexp : FVal → FVal) (rs : RuleSet) (sim : Similarity)
    (t0 t1 max_processing_time_sec : ℚ) (dp_ids : List ℤ)
    (db_get : ℤ → Status × DpDbMsg) (prioritized_list : List ℤ) :
    (∀ res, scanLoop db_get dp_ids [] [] = Except.ok res →
      Timer.is_expired ⟨max_processing_time_sec, t0⟩ t1 = true →
      prioritize gexp rs sim t0 t1 max_processing_time_sec dp_ids db_get prioritized_list =
        (Status.TIMEOUT, prioritized_list)) ∧
    (∀ st, scanLoop db_get dp_ids [] [] = Except.error st →
      prioritize gexp rs sim t0 t1 max_processing_time_sec dp_ids db_get prioritized_list =
        (st, prioritized_list)) := by
  constructor
  · rintro ⟨binned, transmitted⟩ hscan hexp
    simp [prioritize, hscan, hexp]
  · intro st hscan
    simp [prioritize, hscan]

/-- Witness for `c3_timeout_and_failure`: a zero deadline on an empty catalog
times out, and a failing catalog get is surfaced unchanged. -/
theorem c3_timeout_and_failure_witness :
    prioritize (fun _ => FVal.num 0) RuleSet.empty Similarity.emptyConfig 0 0 0 []
      (fun _ => (Status.SUCCESS, ⟨0, "", "", "", 0, 0, 0, DownlinkState.UNTRANSMITTED, []⟩))
      [7] = (Status.TIMEOUT, [7]) ∧
    prioritize (fun _ => FVal.num 0) RuleSet.empty Similarity.emptyConfig 0 0 5 [1]
      (fun _ => (Status.FAILURE, ⟨0, "", "", "", 0, 0, 0, DownlinkState.UNTRANSMITTED, []⟩))
      [7] = (Status.FAILURE, [7]) :=
  ⟨(c3_timeout_and_failure (fun _ => FVal.num 0) RuleSet.empty Similarity.emptyConfig 0 0 0 []
      (fun _ => (Status.SUCCESS, ⟨0, "", "", "", 0, 0, 0, DownlinkState.UNTRANSMITTED, []⟩))
      [7]).1 ([], []) rfl (by with_unfolding_all rfl),
   (c3_timeout_and_failure (fun _ => FVal.num 0) RuleSet.empty Similarity.emptyConfig 0 0 5 [1]
      (fun _ => (Status.FAILURE, ⟨0, "", "", "", 0, 0, 0, DownlinkState.UNTRANSMITTED, []⟩))
      [7]).2 Status.FAILURE (by with_unfolding_all rfl)⟩

/-! ## C10: only untransmitted rows reach the output -/

/-- Setting one key leaves every other key's lookup unchanged. -/
theorem entryGet_entrySet_ne (e : AsdpEntry) (key k : String) (v : DpMetadataValue)
    (h : key ≠ k) : entryGet (entrySet e key v) k = entryGet e k := by
  induction e with
  | nil => simp [entrySet, entryGet, h]
  | cons p rest ih =>
      by_cases hp : p.1 = key
      · simp [entrySet, hp, entryGet, h, Ne.symm h]
      · by_cases hk : p.1 = k <;>
          simp [entrySet, hp, entryGet, hk, Ne.symm h, ih]

/-- Setting a key makes its lookup return the stored value. -/
theorem entryGet_entrySet_self (e : AsdpEntry) (key : String) (v : DpMetadataValue) :
    entryGet (entrySet e key v) key = v := by
  induction e with
  | nil => simp [entrySet, entryGet]
  | cons p rest ih =>
      by_cases hp : p.1 = key <;> simp [entrySet, hp, entryGet, ih]

/-- A populated entry's `id` field is the row's data-product id. -/
theorem populate_id (msg : DpDbMsg) :
    entryGet (_populate_asdp msg).2 "id" = DpMetadataValue.ofInt msg.dp_id := by
  unfold _populate_asdp
  rw [entryGet_entrySet_ne _ _ _ _ (by decide),
     entryGet_entrySet_ne _ _ _ _ (by decide),
     entryGet_entrySet_ne _ _ _ _ (by decide),
     entryGet_entrySet_ne _ _ _ _ (by decide),
     entryGet_entrySet_ne _ _ _ _ (by decide),
     entryGet_entrySet_self]

/-- The scan invariant of C10: the entry's `id` field names a catalog row
(acceptable under `P`) that was fetched successfully and is untransmitted. -/
def ScanGood (db_get : ℤ → Status × DpDbMsg) (P : ℤ → Prop) (a : AsdpEntry) : Prop :=
  ∃ i, P i ∧ (db_get i).1 = Status.SUCCESS ∧
    (db_get i).2.downlink_state = DownlinkState.UNTRANSMITTED ∧
    entryGet a "id" = DpMetadataValue.ofInt (db_get i).2.dp_id

/-- Membership after a sorted-map insertion: an entry of the new buckets was
an entry of the old buckets or is the inserted one. -/
theorem insertBinned_mem (x : AsdpEntry) : ∀ (m : List (ℤ × AsdpList)) (bin : ℤ)
    (p : ℤ × AsdpList), p ∈ insertBinned m bin x → ∀ a ∈ p.2,
    (∃ q ∈ m, a ∈ q.2) ∨ a = x := by
  intro m
  induction m with
  | nil =>
      intro bin p hp a ha
      simp only [insertBinned, List.mem_singleton] at hp
      subst hp
      simp only [List.mem_singleton] at ha
      exact Or.inr ha
  | cons q rest ih =>
      rcases q with ⟨qb, ql⟩
      intro bin p hp a ha
      by_cases h1 : bin = qb
      · simp only [insertBinned, h1, if_true] at hp
        rcases List.mem_cons.mp hp with h | h
        · subst h
          rcases List.mem_append.mp ha with h2 | h2
          · exact Or.inl ⟨(qb, ql), List.mem_cons_self (qb, ql) rest, h2⟩
          · exact Or.inr (List.mem_singleton.mp h2)
        · exact Or.inl ⟨p, List.mem_cons_of_mem (qb, ql) h, ha⟩
      · by_cases h2 : bin < qb
        · simp only [insertBinned, h1, if_false, h2, if_true] at hp
          rcases List.mem_cons.mp hp with h | h
          · subst h
            exact Or.inr (List.mem_singleton.mp ha)
          · exact Or.inl ⟨p, h, ha⟩
        · simp only [insertBinned, h1, if_false, h2, if_false] at hp
          rcases List.mem_cons.mp hp with h | h
          · subst h
            exact Or.inl ⟨(qb, ql), List.mem_cons_self (qb, ql) rest, ha⟩
          · rcases ih bin p h a ha with ⟨q2, hq2, ha2⟩ | h3
            · exact Or.inl ⟨q2, List.mem_cons_of_mem (qb, ql) hq2, ha2⟩
            · exact Or.inr h3

/-- The catalog scan populates the per-bin buckets only with entries that come
from successfully fetched, untransmitted rows whose ids satisfy `P`. -/
theorem scanLoop_ok_inv (db_get : ℤ → Status × DpDbMsg) (P : ℤ → Prop) :
    ∀ (ids : List ℤ) (acc : List (ℤ × AsdpList)) (trans : AsdpList)
      (res : List (ℤ × AsdpList) × AsdpList),
      scanLoop db_get ids acc trans = Except.ok res →
      (∀ i ∈ ids, P i) →
      (∀ p ∈ acc, ∀ a ∈ p.2, ScanGood db_get P a) →
      ∀ p ∈ res.1, ∀ a ∈ p.2, ScanGood db_get P a := by
  intro ids
  induction ids with
  | nil =>
      intro acc trans res hscan hP hacc
      simp only [scanLoop, Except.ok.injEq] at hscan
      subst hscan
      exact hacc
  | cons i rest ih =>
      intro acc trans res hscan hP hacc
      rcases hdb : db_get i with ⟨st, msg⟩
      rw [scanLoop, hdb] at hscan
      by_cases hst : st ≠ Status.SUCCESS
      · rw [if_pos hst] at hscan; cases hscan
      · rw [if_neg hst] at hscan
        push_neg at hst
        by_cases hdl : msg.downlink_state = DownlinkState.DOWNLINKED
        · rw [if_pos hdl] at hscan
          exact ih acc trans res hscan (fun j hj => hP j (List.mem_cons_of_mem i hj)) hacc
        · rw [if_neg hdl] at hscan
          rw [if_neg (by simp [_populate_asdp])] at hscan
          by_cases htr : msg.downlink_state = DownlinkState.TRANSMITTED
          · rw [if_pos htr] at hscan
            exact ih _ _ res hscan (fun j hj => hP j (List.mem_cons_of_mem i hj)) hacc
          · rw [if_neg htr] at hscan
            refine ih _ _ res hscan (fun j hj => hP j (List.mem_cons_of_mem i hj)) ?_
            intro p hp a ha
            rcases insertBinned_mem (_populate_asdp msg).2 acc msg.priority_bin p hp a ha with
              hold | hnew
            · rcases hold with ⟨q, hq, haq⟩
              exact hacc q hq a haq
            · refine ⟨i, hP i (List.mem_cons_self i rest), ?_, ?_, ?_⟩
              · rw [hdb]; exact hst
              · rw [hdb]
                cases hstate : msg.downlink_state with
                | UNTRANSMITTED => rfl
                | TRANSMITTED => exact absurd hstate htr
                | DOWNLINKED => exact absurd hstate hdl
              · rw [hnew, hdb, populate_id]

/-- Every entry of the scanned pool is a pool entry with its
`final_science_utility_estimate` field rewritten. -/
theorem scanCandidates_pool (gexp : FVal → FVal) (bin : ℤ) (rs : RuleSet) (sim : Similarity)
    (prioritized : AsdpList) (cs : ℤ) (cu : FVal) :
    ∀ (pool : List AsdpEntry) (idx : ℕ) (best : Option (ℕ × FVal)) (cache : SimCache),
      ∀ a ∈ (scanCandidates gexp bin rs sim prioritized cs cu pool idx best cache).2.1,
        ∃ b ∈ pool, ∃ v, a = entrySet b "final_science_utility_estimate" v := by
  intro pool
  induction pool with
  | nil => intro idx best cache a ha; simp [scanCandidates] at ha
  | cons asdp rest ih =>
      intro idx best cache a ha
      rw [scanCandidates] at ha
      split at ha
      next df cache' hdf =>
        simp only [] at ha
        rcases List.mem_cons.mp ha with h | h
        · exact ⟨asdp, List.mem_cons_self asdp rest, _, h⟩
        · rcases ih (idx + 1) _ cache' a h with ⟨b, hb, v, hv⟩
          exact ⟨b, List.mem_cons_of_mem asdp hb, v, hv⟩

/-- The candidate scan preserves the pool's length. -/
theorem scanCandidates_len (gexp : FVal → FVal) (bin : ℤ) (rs : RuleSet) (sim : Similarity)
    (prioritized : AsdpList) (cs : ℤ) (cu : FVal) :
    ∀ (pool : List AsdpEntry) (idx : ℕ) (best : Option (ℕ × FVal)) (cache : SimCache),
      (scanCandidates gexp bin rs sim prioritized cs cu pool idx best cache).2.1.length =
        pool.length := by
  intro pool
  induction pool with
  | nil => intro idx best cache; rfl
  | cons asdp rest ih =>
      intro idx best cache
      rw [scanCandidates]
      split
      next df cache' hdf =>
        simp only [List.length_cons]
        rw [ih (idx + 1) _ cache']

/-- `bestUpdate` produces an index below `idx + 1` whenever the incoming best
index is below `idx`. -/
theorem bestUpdate_lt (best : Option (ℕ × FVal)) (idx : ℕ) (ru : FVal)
    (h : ∀ j x, best = some (j, x) → j < idx) :
    ∀ j x, bestUpdate best idx ru = some (j, x) → j < idx + 1 := by
  intro j x hj
  rcases best with _ | ⟨bi, bv⟩
  · simp only [bestUpdate, Option.some.injEq, Prod.mk.injEq] at hj
    omega
  · simp only [bestUpdate] at hj
    split at hj <;> simp only [Option.some.injEq, Prod.mk.injEq] at hj
    · omega
    · have := h bi bv rfl
      omega

/-- The index selected by the candidate scan is below `idx` plus the pool
length, provided the incoming best index is below `idx`. -/
theorem scanCandidates_best_lt (gexp : FVal → FVal) (bin : ℤ) (rs : RuleSet) (sim : Similarity)
    (prioritized : AsdpList) (cs : ℤ) (cu : FVal) :
    ∀ (pool : List AsdpEntry) (idx : ℕ) (best : Option (ℕ × FVal)) (cache : SimCache),
      (∀ j x, best = some (j, x) → j < idx) →
      ∀ j x, (scanCandidates gexp bin rs sim prioritized cs cu pool idx best cache).1 =
        some (j, x) → j < idx + pool.length := by
  intro pool
  induction pool with
  | nil =>
      intro idx best cache hb j x hj
      simp only [scanCandidates] at hj
      simpa using hb j x hj
  | cons asdp rest ih =>
      intro idx best cache hb j x hj
      rw [scanCandidates] at hj
      split at hj
      next df cache' hdf =>
        simp only [] at hj
        have hb' : ∀ j x,
            (if (rs.apply bin (prioritized ++ [asdp])).1 = true then
              bestUpdate best idx
                (fdiv (fadd (fadd cu (fmul df
                    (entryGet asdp "science_utility_estimate").get_float_value))
                    (rs.apply bin (prioritized ++ [asdp])).2)
                  (FVal.num ((cs + (entryGet asdp "size").get_int_value : ℤ) : ℚ)))
            else best) = some (j, x) → j < idx + 1 := by
          split
          · exact bestUpdate_lt best idx _ hb
          · intro j x hj2
            have := hb j x hj2
            omega
        have := ih (idx + 1) _ cache' hb' j x hj
        simpa [Nat.add_assoc, Nat.add_comm 1 rest.length] using this

/-- Any entry property preserved by rewriting the
`final_science_utility_estimate` field holds for every entry the greedy loop
puts onto the prioritized queue, provided it holds for the pool and the queue
built so far. -/
theorem prioritizeLoop_pred (gexp : FVal → FVal) (bin : ℤ) (rs : RuleSet) (sim : Similarity)
    (Q : AsdpEntry → Prop)
    (hQ : ∀ a v, Q a → Q (entrySet a "final_science_utility_estimate" v)) :
    ∀ (fuel : ℕ) (pool prioritized : AsdpList) (cs : ℤ) (cu : FVal) (cache : SimCache),
      (∀ a ∈ pool, Q a) → (∀ a ∈ prioritized, Q a) →
      ∀ a ∈ prioritizeLoop gexp bin rs sim fuel pool prioritized cs cu cache, Q a := by
  intro fuel
  induction fuel with
  | zero => intro pool prioritized cs cu cache hpool hprior a ha; exact hprior a ha
  | succ n ih =>
      intro pool prioritized cs cu cache hpool hprior a ha
      rw [prioritizeLoop] at ha
      split at ha
      next hscan => exact hprior a ha
      next best_idx bv asdps' cache' hscan =>
        have hpool' : ∀ a ∈ asdps', Q a := by
          intro b hb
          have hb2 : b ∈ (scanCandidates gexp bin rs sim prioritized cs cu pool 0
              none cache).2.1 := by rw [hscan]; exact hb
          rcases scanCandidates_pool gexp bin rs sim prioritized cs cu pool 0 none cache
            b hb2 with ⟨b0, hb0, v, hv⟩
          rw [hv]
          exact hQ b0 v (hpool b0 hb0)
        have hlen : asdps'.length = pool.length := by
          have := scanCandidates_len gexp bin rs sim prioritized cs cu pool 0 none cache
          rw [hscan] at this
          exact this
        have hbest : best_idx < asdps'.length := by
          have h0 : ∀ j x, (none : Option (ℕ × FVal)) = some (j, x) → j < 0 := by
            intro j x h; cases h
          have := scanCandidates_best_lt gexp bin rs sim prioritized cs cu pool 0 none cache
            h0 best_idx bv (by rw [hscan])
          omega
        have hmem : asdps'.getD best_idx [] ∈ asdps' := by
          rw [List.getD_eq_getElem asdps' [] hbest]
          exact asdps'.getElem_mem hbest
        refine ih (asdps'.eraseIdx best_idx) (prioritized ++ [asdps'.getD best_idx []])
          _ _ cache' ?_ ?_ a ha
        · intro b hb
          exact hpool' b (List.eraseIdx_subset asdps' best_idx hb)
        · intro b hb
          rcases List.mem_append.mp hb with h | h
          · exact hprior b h
          · rw [List.mem_singleton.mp h]
            exact hpool' _ hmem

/-- Every id returned by `_prioritize_bin` is the id field of some pool entry
(modulo the rewritten `final_science_utility_estimate` field). -/
theorem prioritize_bin_ids (gexp : FVal → FVal) (bin : ℤ) (pool : AsdpList)
    (rs : RuleSet) (sim : Similarity) (cache : SimCache)
    (Q : AsdpEntry → Prop)
    (hQ : ∀ a v, Q a → Q (entrySet a "final_science_utility_estimate" v))
    (hpool : ∀ a ∈ pool, Q a) :
    ∀ x ∈ _prioritize_bin gexp bin pool rs sim cache,
      ∃ a, Q a ∧ x = (entryGet a "id").get_int_value := by
  intro x hx
  unfold _prioritize_bin at hx
  rcases List.mem_map.mp hx with ⟨a, ha, hax⟩
  refine ⟨a, ?_, hax.symm⟩
  exact prioritizeLoop_pred gexp bin rs sim Q hQ pool.length pool [] 0 (FVal.num 0) cache
    hpool (by intro b hb; cases hb) a ha

/-- Folding list appends equals one flat concatenation. -/
theorem foldl_append_flatMap {α β : Type} (f : α → List β) :
    ∀ (l : List α) (init : List β),
      l.foldl (fun acc p => acc ++ f p) init = init ++ l.flatMap f := by
  intro l
  induction l with
  | nil => intro init; simp
  | cons a rest ih => intro init; simp [ih, List.append_assoc]

/-- C10: every id appended to the output by `prioritize` comes from a catalog
row that was fetched successfully and whose downlink state is
`UNTRANSMITTED`; `TRANSMITTED` rows go to the separate `transmitted` list that
never feeds the per-bin pools, and `DOWNLINKED` rows are skipped outright, so
neither can contribute ids. -/
theorem c10_untransmitted_only (gexp : FVal → FVal) (rs : RuleSet) (sim : Similarity)
    (t0 t1 max_processing_time_sec : ℚ) (dp_ids : List ℤ)
    (db_get : ℤ → Status × DpDbMsg) (prioritized_list : List ℤ)
    (st : Status) (res : List ℤ) :
    prioritize gexp rs sim t0 t1 max_processing_time_sec dp_ids db_get prioritized_list =
      (st, res) →
    ∃ appended, res = prioritized_list ++ appended ∧
      ∀ x ∈ appended, ∃ i ∈ dp_ids, (db_get i).1 = Status.SUCCESS ∧
        (db_get i).2.downlink_state = DownlinkState.UNTRANSMITTED ∧
        (db_get i).2.dp_id = x := by
  intro h
  unfold prioritize at h
  split at h
  next st0 hscan =>
    refine ⟨[], ?_, by intro x hx; cases hx⟩
    injection h with h1 h2
    rw [← h2, List.append_nil]
  next binned trans hscan =>
    simp only [] at h
    split at h
    · refine ⟨[], ?_, by intro x hx; cases hx⟩
      injection h with h1 h2
      rw [← h2, List.append_nil]
    · injection h with h1 h2
      refine ⟨binned.flatMap (fun p => _prioritize_bin gexp p.1 p.2 rs sim []), ?_, ?_⟩
      · rw [← h2, foldl_append_flatMap]
      · intro x hx
        rcases List.mem_flatMap.mp hx with ⟨p, hp, hxp⟩
        have hscangood : ∀ q ∈ binned, ∀ a ∈ q.2, ScanGood db_get (· ∈ dp_ids) a :=
          scanLoop_ok_inv db_get (· ∈ dp_ids) dp_ids [] [] (binned, trans) hscan
            (fun i hi => hi) (by intro q hq; cases hq)
        have hQ : ∀ a v, ScanGood db_get (· ∈ dp_ids) a →
            ScanGood db_get (· ∈ dp_ids)
              (entrySet a "final_science_utility_estimate" v) := by
          rintro a v ⟨i, hi, hsucc, hun, hid⟩
          exact ⟨i, hi, hsucc, hun, by
            rw [entryGet_entrySet_ne _ _ _ _ (by decide), hid]⟩
        rcases prioritize_bin_ids gexp p.1 p.2 rs sim []
            (ScanGood db_get (· ∈ dp_ids)) hQ (hscangood p hp) x hxp with
          ⟨a, ⟨i, hi, hsucc, hun, hid⟩, hxa⟩
        exact ⟨i, hi, hsucc, hun, by rw [hxa, hid]; rfl⟩

/-- Witness for `c10_untransmitted_only`: a three-row catalog with one
untransmitted, one transmitted and one downlinked row yields exactly the
untransmitted id, traced back to its row. -/
theorem c10_untransmitted_only_witness :
    ∃ appended, [1] = ([] : List ℤ) ++ appended ∧
      ∀ x ∈ appended, ∃ i ∈ [(1 : ℤ), 2, 3],
        ((fun j => (Status.SUCCESS,
          (⟨j, "", "", "", 10, 1, 0,
            if j = 1 then DownlinkState.UNTRANSMITTED
            else if j = 2 then DownlinkState.TRANSMITTED
            else DownlinkState.DOWNLINKED, []⟩ : DpDbMsg))) i).1 = Status.SUCCESS ∧
        ((fun j => (Status.SUCCESS,
          (⟨j, "", "", "", 10, 1, 0,
            if j = 1 then DownlinkState.UNTRANSMITTED
            else if j = 2 then DownlinkState.TRANSMITTED
            else DownlinkState.DOWNLINKED, []⟩ : DpDbMsg))) i).2.downlink_state =
          DownlinkState.UNTRANSMITTED ∧
        ((fun j => (Status.SUCCESS,
          (⟨j, "", "", "", 10, 1, 0,
            if j = 1 then DownlinkState.UNTRANSMITTED
            else if j = 2 then DownlinkState.TRANSMITTED
            else DownlinkState.DOWNLINKED, []⟩ : DpDbMsg))) i).2.dp_id = x :=
  c10_untransmitted_only (fun _ => FVal.num 0) RuleSet.empty Similarity.emptyConfig
    0 0 5 [1, 2, 3]
    (fun j => (Status.SUCCESS,
      (⟨j, "", "", "", 10, 1, 0,
        if j = 1 then DownlinkState.UNTRANSMITTED
        else if j = 2 then DownlinkState.TRANSMITTED
        else DownlinkState.DOWNLINKED, []⟩ : DpDbMsg)))
    [] Status.SUCCESS [1] (by with_unfolding_all rfl)
